import Mathlib

/-!
Verification of the practice-game session engine of the wordsup front-end.

The TypeScript pages are shallowly embedded: component state becomes a
structure, every event handler becomes a pure state-transition function, and
`Math.random()`-driven shuffles take an explicit `Nat → Nat` randomness
stream.  Strings are `List Char`; a JS `string | null` field is an
`Option (List Char)` and JS truthiness (`!!s`, where both `null` and `""`
are falsy) is modelled by `jsTruthy`.
-/

namespace WordsUp

/-- Strings of the embedded program (JS strings, as character lists). -/
abbrev Str := List Char

/-- JS truthiness of a `string | null` value: `null` and `""` are falsy. -/
def jsTruthy : Option Str → Bool
  | none => false
  | some s => !s.isEmpty

/-- `String.prototype.trim`: strip leading and trailing whitespace. -/
def jsTrim (s : Str) : Str :=
  ((s.dropWhile Char.isWhitespace).reverse.dropWhile Char.isWhitespace).reverse

/-- `Array.prototype.findIndex`, with `none` standing for the JS `-1`. -/
def jsFindIndex (p : α → Bool) : List α → Option Nat
  | [] => none
  | x :: xs => if p x then some 0 else (jsFindIndex p xs).map (· + 1)

/-- Helper of `jsDedup`: walk the list keeping the first occurrence of each
element, with `seen` the set of elements already emitted. -/
def jsDedupGo [DecidableEq α] (seen : List α) : List α → List α
  | [] => []
  | x :: xs => if x ∈ seen then jsDedupGo seen xs else x :: jsDedupGo (x :: seen) xs

/-- `Array.from(new Set(options))`: deduplicate keeping first occurrences. -/
def jsDedup [DecidableEq α] (l : List α) : List α := jsDedupGo [] l

/-- The JS array-destructuring swap `[a[i], a[j]] = [a[j], a[i]]` (identity
when an index is out of range, which never happens in the program). -/
def listSwap (l : List α) (i j : Nat) : List α :=
  if h : i < l.length ∧ j < l.length then
    (l.set i (l.get ⟨j, h.2⟩)).set j (l.get ⟨i, h.1⟩)
  else l

/-- The loop of `shuffleArray`: `for (let i = len-1; i > 0; i--)` swapping
index `i` with `Math.floor(Math.random() * (i + 1))`, a uniformly random
index in `[0, i]`, here `r i % (i + 1)`. -/
def shuffleGo (r : Nat → Nat) : Nat → List α → List α
  | 0, l => l
  | i + 1, l => shuffleGo r i (listSwap l (i + 1) (r (i + 1) % (i + 2)))

/-- `shuffleArray` of the game pages (Fisher–Yates over a copy), with the
randomness drawn from the stream `r`. -/
def shuffleArray (r : Nat → Nat) (arr : List α) : List α :=
  shuffleGo r (arr.length - 1) arr

/-- Learning status of a `Word` (`'unknown' | 'learning' | 'known'`). -/
inductive WStatus where
  | unknown
  | learning
  | known
deriving DecidableEq

/-- Provenance of a word image (`'api' | 'uploaded'`). -/
inductive ImageSource where
  | api
  | uploaded
deriving DecidableEq

/-- The `Word` interface shared by the game pages. -/
structure Word where
  id : Nat
  group_id : Nat
  word_en : Str
  transcription : Option Str
  translation_uk : Option Str
  image_url : Option Str
  image_source : ImageSource
  status : WStatus
deriving DecidableEq

/-- Game mode of the multiple-choice page. -/
inductive GameMode where
  | enToUk
  | ukToEn
  | imageToEn
deriving DecidableEq

/-- The `GamePhase` union of the session pages. -/
inductive GamePhase where
  | setup
  | playing
  | results
deriving DecidableEq

/-- An Answer Record `{ wordId, correct }`. -/
structure GameAnswer where
  wordId : Nat
  correct : Bool
deriving DecidableEq

/-- Status filter step of the pool filters: `pool.filter(w => w.status ===
settings.status)` when the setting is not `'all'` (modelled as `some st`). -/
def statusFilter (status : Option WStatus) (pool : List Word) : List Word :=
  match status with
  | none => pool
  | some st => pool.filter (fun w => decide (w.status = st))

/-- Group step of `filteredBaseWords` (multiple-choice and build-word pages):
for a concrete group, in-group words first, and when fewer than 10 are in the
group all out-of-group words are appended after them. -/
def groupFallback (groupId : Option Nat) (pool : List Word) : List Word :=
  match groupId with
  | none => pool
  | some g =>
    let inGroup := pool.filter (fun w => decide (w.group_id = g))
    let outOfGroup := pool.filter (fun w => decide (w.group_id ≠ g))
    inGroup ++ (if inGroup.length < 10 then outOfGroup else [])

/-- Mode-specific field-presence step of the multiple-choice
`filteredBaseWords`: text modes need `translation_uk`, the image mode needs
`image_url` (JS truthiness, so empty strings also fail). -/
def mcModeFilter : GameMode → List Word → List Word
  | .enToUk, pool => pool.filter (fun w => jsTruthy w.translation_uk)
  | .ukToEn, pool => pool.filter (fun w => jsTruthy w.translation_uk)
  | .imageToEn, pool => pool.filter (fun w => jsTruthy w.image_url)

/-- The `GameSettings` record of the multiple-choice page; `none` stands for
the `'all'` choice. -/
structure MCSettings where
  groupId : Option Nat
  status : Option WStatus
  questionCount : Nat
  mode : GameMode
deriving DecidableEq

/-- `filteredBaseWords` of `MultipleChoiceGamePage`: status filter, then
group filter with the under-10 fallback, then the mode field filter. -/
def mcFilteredBaseWords (settings : MCSettings) (words : List Word) : List Word :=
  mcModeFilter settings.mode (groupFallback settings.groupId (statusFilter settings.status words))

/-- The build-word page's "simple word" test `/^[a-zA-Z ,]+$/`. -/
def isSimpleWord (s : Str) : Bool :=
  !s.isEmpty && s.all (fun c => c.isAlpha || c = ' ' || c = ',')

/-- The `GameSettings` record of the build-word page. -/
structure BWSettings where
  groupId : Option Nat
  status : Option WStatus
  questionCount : Nat
  showImage : Bool
  showFirstLetter : Bool
deriving DecidableEq

/-- `filteredBaseWords` of `BuildWordGamePage`: simple-word filter, status
filter, group filter with the under-10 fallback, then the
`translation_uk`-presence filter. -/
def bwFilteredBaseWords (settings : BWSettings) (words : List Word) : List Word :=
  (groupFallback settings.groupId
      (statusFilter settings.status
        (words.filter (fun w => isSimpleWord w.word_en)))).filter
    (fun w => jsTruthy w.translation_uk)

/-- A built multiple-choice question. -/
structure Question where
  id : Nat
  word : Word
  options : List Str
  correctIndex : Nat
deriving DecidableEq

/-- Text shown for a word in a given mode: the correct answer text for the
target, and also the option text of each distractor (`translation_uk || ''`
in `enToUk` mode, `word_en` otherwise). -/
def correctTextOf : GameMode → Word → Str
  | .enToUk, w => w.translation_uk.getD []
  | .ukToEn, w => w.word_en
  | .imageToEn, w => w.word_en

/-- One iteration of the `buildQuestions` loop: build the question for
`target` (= `shuffled[i]`), or `none` where the loop `continue`s. -/
def mkQuestion (rd ro : Nat → Nat) (pool : List Word) (mode : GameMode)
    (i : Nat) (target : Word) : Option Question :=
  let distractPool := pool.filter (fun w => decide (w.id ≠ target.id))
  let distractShuffled := (shuffleArray rd distractPool).take 3
  let correctText := correctTextOf mode target
  let options0 := correctText :: distractShuffled.map (correctTextOf mode)
  let options1 := options0.filter (fun s => !s.isEmpty)
  let options2 := jsDedup options1
  if options2.length < 2 then none
  else
    match jsFindIndex (fun opt => decide (opt = correctText)) (shuffleArray ro options2) with
    | none => none
    | some correctIndex => some ⟨i, target, shuffleArray ro options2, correctIndex⟩

/-- `buildQuestions` of the multiple-choice page.  `R k` is the randomness
stream of the `k`-th `shuffleArray` call inside the loop, `rs` that of the
initial pool shuffle. -/
def buildQuestions (R : Nat → Nat → Nat) (rs : Nat → Nat) (pool : List Word)
    (mode : GameMode) (count : Nat) : List Question :=
  if pool.length < 2 then []
  else
    let shuffled := shuffleArray rs pool
    let limit := min count shuffled.length
    (List.range limit).filterMap (fun i =>
      match shuffled[i]? with
      | some target => mkQuestion (R (2 * i)) (R (2 * i + 1)) pool mode i target
      | none => none)

/-- Error messages surfaced by the multiple-choice page's start handler. -/
inductive MCError where
  | noWords
  | cannotGenerate
deriving DecidableEq

/-- Component state of `MultipleChoiceGamePage`.  The page declares no stats
mutation at all, so the `statsCalls` ledger of issued batched stats
submissions is appended to by no handler. -/
structure MCState where
  phase : GamePhase
  questions : List Question
  currentIndex : Nat
  selectedIndex : Option Nat
  answers : List GameAnswer
  correctCount : Nat
  streak : Nat
  bestStreak : Nat
  error : Option MCError
  selectedForMark : List Nat
  statsCalls : List (List GameAnswer)
deriving DecidableEq

/-- Initial state of the multiple-choice page (the `useState` initialisers). -/
def mcInit : MCState :=
  { phase := .setup
    questions := []
    currentIndex := 0
    selectedIndex := none
    answers := []
    correctCount := 0
    streak := 0
    bestStreak := 0
    error := none
    selectedForMark := []
    statsCalls := [] }

/-- `handleStartGame` of the multiple-choice page. -/
def mcHandleStartGame (R : Nat → Nat → Nat) (rs : Nat → Nat)
    (settings : MCSettings) (words : List Word) (s : MCState) : MCState :=
  let pool := mcFilteredBaseWords settings words
  if pool.isEmpty then { s with error := some .noWords }
  else
    let qs := buildQuestions R rs pool settings.mode settings.questionCount
    if qs.isEmpty then { s with error := some .cannotGenerate }
    else
      { s with
        error := none
        questions := qs
        currentIndex := 0
        selectedIndex := none
        answers := []
        correctCount := 0
        streak := 0
        bestStreak := 0
        selectedForMark := []
        phase := .playing }

/-- The page's `currentQuestion` derived value. -/
def mcCurrentQuestion (s : MCState) : Option Question :=
  if s.phase = .playing then s.questions[s.currentIndex]? else none

/-- `handleSelectOption`: the first selection locks the question and appends
one Answer Record. -/
def mcHandleSelectOption (idx : Nat) (s : MCState) : MCState :=
  match mcCurrentQuestion s with
  | none => s
  | some q =>
    if s.selectedIndex.isSome then s
    else
      let isCorrect := decide (idx = q.correctIndex)
      { s with
        selectedIndex := some idx
        answers := s.answers ++ [⟨q.word.id, isCorrect⟩]
        correctCount := if isCorrect then s.correctCount + 1 else s.correctCount
        streak := if isCorrect then s.streak + 1 else 0
        bestStreak := if isCorrect then max s.bestStreak (s.streak + 1) else s.bestStreak }

/-- `handleNextQuestion`: advance, or enter the results phase after the last
question. -/
def mcHandleNextQuestion (s : MCState) : MCState :=
  if s.currentIndex + 1 ≥ s.questions.length then { s with phase := .results }
  else { s with currentIndex := s.currentIndex + 1, selectedIndex := none }

/-- User events of the multiple-choice page, each carrying the randomness its
handler consumes. -/
inductive MCEvent where
  | start (R : Nat → Nat → Nat) (rs : Nat → Nat)
  | select (idx : Nat)
  | next
  | toSetup

/-- One user event.  The "next" button is rendered only in the playing phase
and is `disabled` while `selectedIndex === null`, and the "change settings"
button only exists on the results view, so those events fire only under the
corresponding guards. -/
def mcStep (settings : MCSettings) (words : List Word) (s : MCState) : MCEvent → MCState
  | .start R rs => mcHandleStartGame R rs settings words s
  | .select idx => mcHandleSelectOption idx s
  | .next =>
    if s.phase = GamePhase.playing ∧ s.selectedIndex ≠ none then mcHandleNextQuestion s else s
  | .toSetup => if s.phase = GamePhase.results then { s with phase := .setup } else s

/-- A whole interaction: fold the events over the initial state. -/
def mcRun (settings : MCSettings) (words : List Word) (events : List MCEvent) : MCState :=
  events.foldl (mcStep settings words) mcInit

/-- Slot kind of the build-word page (`'letter' | 'space'`). -/
inductive SlotType where
  | letter
  | space
deriving DecidableEq

/-- A letter slot of the build-word page. -/
structure Slot where
  index : Nat
  type : SlotType
  char : Option Char
  sourceButtonId : Option Nat
deriving DecidableEq

/-- A draggable letter button. -/
structure LetterButton where
  id : Nat
  char : Char
deriving DecidableEq

/-- The character loop of `buildSlotsAndLetters`, threading the next slot
index and button id: spaces become fixed space slots, commas fixed letter
slots, and every other character an empty letter slot plus one button. -/
def buildSlotsGo : List Char → Nat → Nat → List Slot × List LetterButton
  | [], _, _ => ([], [])
  | c :: cs, slotIdx, btnId =>
    if c = ' ' then
      let r := buildSlotsGo cs (slotIdx + 1) btnId
      (⟨slotIdx, .space, some ' ', none⟩ :: r.1, r.2)
    else if c = ',' then
      let r := buildSlotsGo cs (slotIdx + 1) btnId
      (⟨slotIdx, .letter, some ',', none⟩ :: r.1, r.2)
    else
      let r := buildSlotsGo cs (slotIdx + 1) (btnId + 1)
      (⟨slotIdx, .letter, none, none⟩ :: r.1, ⟨btnId, c⟩ :: r.2)

/-- `buildSlotsAndLetters` of the build-word page: trim and lowercase the
target, build slots and buttons, optionally pre-fill the first letter slot
from the first button, and shuffle the buttons. -/
def buildSlotsAndLetters (showFirstLetter : Bool) (r : Nat → Nat) (w : Word) :
    List Slot × List LetterButton :=
  let normalized := (jsTrim w.word_en).map Char.toLower
  let base := buildSlotsGo normalized 0 0
  let newSlots :=
    if showFirstLetter then
      match jsFindIndex (fun sl => decide (sl.type = SlotType.letter)) base.1, base.2 with
      | some i, b :: _ =>
        match base.1[i]? with
        | some sl => base.1.set i { sl with char := some b.char, sourceButtonId := some b.id }
        | none => base.1
      | _, _ => base.1
    else base.1
  (newSlots, shuffleArray r base.2)

/-- Selection state after a check (`'idle' | 'correct' | 'wrong'`). -/
inductive SelState where
  | idle
  | correct
  | wrong
deriving DecidableEq

/-- Inline feedback messages of the build-word page. -/
inductive BWFeedback where
  | fillAll
  | praise
  | mistake (word_en : Str)
deriving DecidableEq

/-- Error messages of the build-word page. -/
inductive BWError where
  | noWords
  | notEnough
  | noWrongWords
deriving DecidableEq

/-- Component state of `BuildWordGamePage`.  `statsCalls` records each
`statsMutation.mutate(answers)` invocation (the batched stats submission). -/
structure BWState where
  phase : GamePhase
  settings : BWSettings
  questions : List Word
  currentIndex : Nat
  slots : List Slot
  letters : List LetterButton
  selectedState : SelState
  feedback : Option BWFeedback
  answers : List GameAnswer
  correctCount : Nat
  streak : Nat
  bestStreak : Nat
  error : Option BWError
  onlyWrongRetry : Bool
  selectedForMark : List Nat
  statsCalls : List (List GameAnswer)
deriving DecidableEq

/-- The page's `currentWord` derived value. -/
def bwCurrentWord (s : BWState) : Option Word :=
  if s.phase = .playing then s.questions[s.currentIndex]? else none

/-- `startGameWithPool`: shuffle, cap by the question count (9999 meaning
"all"), reset the per-session state, enter the playing phase and build the
slots of the first word. -/
def bwStartGameWithPool (r rSlots : Nat → Nat) (s : BWState) (pool : List Word) : BWState :=
  let shuffled := shuffleArray r pool
  let limit :=
    min (if s.settings.questionCount = 9999 then shuffled.length else s.settings.questionCount)
      shuffled.length
  let selected := shuffled.take limit
  if selected.isEmpty then { s with error := some .notEnough }
  else
    let sl :=
      match selected with
      | w :: _ => buildSlotsAndLetters s.settings.showFirstLetter rSlots w
      | [] => ([], [])
    { s with
      questions := selected
      currentIndex := 0
      answers := []
      correctCount := 0
      streak := 0
      bestStreak := 0
      feedback := none
      selectedState := .idle
      selectedForMark := []
      onlyWrongRetry := false
      error := none
      phase := .playing
      slots := sl.1
      letters := sl.2 }

/-- `handleStartGame` of the build-word page. -/
def bwHandleStartGame (r rSlots : Nat → Nat) (words : List Word) (s : BWState) : BWState :=
  let pool := bwFilteredBaseWords s.settings words
  if pool.isEmpty then { s with error := some .noWords }
  else bwStartGameWithPool r rSlots s pool

/-- The `char` values of the letter-type slots (`slots.filter(letter)`),
where `none` is an unfilled slot (JS `null`, mapped to the falsy `''`). -/
def letterSlotChars (slots : List Slot) : List (Option Char) :=
  (slots.filter (fun sl => decide (sl.type = SlotType.letter))).map (fun sl => sl.char)

/-- The joined answer string, lowercased: empty (`null`) slots contribute
nothing to the join. -/
def bwAnswerNormalized (slots : List Slot) : Str :=
  ((slots.filter (fun sl => decide (sl.type = SlotType.letter))).filterMap
    (fun sl => sl.char)).map Char.toLower

/-- The comparison target: `word_en.toLowerCase().replace(/\s+/g, '')`. -/
def bwCorrectNormalized (w : Word) : Str :=
  (w.word_en.map Char.toLower).filter (fun c => !c.isWhitespace)

/-- `handleCheck` of the build-word page. -/
def bwHandleCheck (s : BWState) : BWState :=
  match bwCurrentWord s with
  | none => s
  | some w =>
    if s.selectedState ≠ .idle then s
    else if (letterSlotChars s.slots).any (fun c => c.isNone) then
      { s with feedback := some .fillAll }
    else
      let isCorrect := decide (bwAnswerNormalized s.slots = bwCorrectNormalized w)
      { s with
        selectedState := if isCorrect then .correct else .wrong
        feedback := some (if isCorrect then .praise else .mistake w.word_en)
        answers := s.answers ++ [⟨w.id, isCorrect⟩]
        correctCount := if isCorrect then s.correctCount + 1 else s.correctCount
        streak := if isCorrect then s.streak + 1 else 0
        bestStreak := if isCorrect then max s.bestStreak (s.streak + 1) else s.bestStreak }

/-- `handleNext` of the build-word page; at the end of the game it enters the
results phase and issues the one batched stats submission with the session's
answers, otherwise it advances and (via the `[currentIndex, phase]` effect)
rebuilds the slots of the next word. -/
def bwHandleNext (rSlots : Nat → Nat) (s : BWState) : BWState :=
  if s.selectedState = .idle then s
  else if s.currentIndex + 1 ≥ s.questions.length then
    { s with phase := .results, statsCalls := s.statsCalls ++ [s.answers] }
  else
    let s2 : BWState := { s with currentIndex := s.currentIndex + 1 }
    match bwCurrentWord s2 with
    | some w =>
      let sl := buildSlotsAndLetters s2.settings.showFirstLetter rSlots w
      { s2 with slots := sl.1, letters := sl.2, selectedState := .idle, feedback := none }
    | none => s2

/-- The `results` memo `questions.map((w, idx) => (w, answers[idx]?.correct
?? false))`, as a positional pairing with default `false`. -/
def bwResultsList : List Word → List GameAnswer → List (Word × Bool)
  | [], _ => []
  | w :: ws, [] => (w, false) :: bwResultsList ws []
  | w :: ws, a :: as => (w, a.correct) :: bwResultsList ws as

/-- The `results` memo of the build-word page (empty outside the results
phase). -/
def bwResults (s : BWState) : List (Word × Bool) :=
  if s.phase = .results then bwResultsList s.questions s.answers else []

/-- `handleRetryWrongOnly` of the build-word page. -/
def bwHandleRetryWrongOnly (r rSlots : Nat → Nat) (s : BWState) : BWState :=
  let wrongWords := ((bwResults s).filter (fun p => !p.2)).map (fun p => p.1)
  if wrongWords.isEmpty then { s with error := some .noWrongWords }
  else bwStartGameWithPool r rSlots { s with onlyWrongRetry := true } wrongWords

/-- A committed pair of the column-pairs page. -/
structure CPPair where
  leftId : Nat
  rightId : Nat
deriving DecidableEq

/-- Component state of `ColumnPairsGamePage` (the fields `handleCheck`
touches); `statsCalls` records the `POST /stats` issued on completion. -/
structure CPState where
  phase : GamePhase
  gameWords : List Word
  pairs : List CPPair
  answers : List GameAnswer
  correctCount : Nat
  statsCalls : List (List GameAnswer)
deriving DecidableEq

/-- `handleCheck` of the column-pairs page: guarded on all words being
paired, it scores one Answer Record per game word and enters the results
phase, posting the batch to the stats endpoint. -/
def cpHandleCheck (s : CPState) : CPState :=
  if s.pairs.length ≠ s.gameWords.length then s
  else
    let newAnswers := s.gameWords.map (fun w =>
      let pair := s.pairs.find? (fun p => decide (p.leftId = w.id) || decide (p.rightId = w.id))
      let isCorrect :=
        match pair with
        | some p => decide (p.leftId = p.rightId)
        | none => false
      GameAnswer.mk w.id isCorrect)
    { s with
      correctCount := newAnswers.countP (fun a => a.correct)
      answers := newAnswers
      phase := .results
      statsCalls := s.statsCalls ++ [newAnswers] }

/-- Playback state of `ListenWordsGamePage`: the `isPlaying` flag, the
current index, the `stopRequestedRef` cancellation flag, and the number of
narration loops the `[isPlaying]` effect has launched. -/
structure ListenState where
  isPlaying : Bool
  currentIndex : Nat
  stopRequested : Bool
  loopStarts : Nat
deriving DecidableEq

/-- A click of the start button of the listen-words page.  The button carries
`disabled={!canPlay || isPlaying}` (and `handleStart` itself returns on an
empty playlist), so the click does nothing while disabled; otherwise
`handleStart` resets the flags and index and `setIsPlaying(true)` launches
one narration loop through the `[isPlaying]` effect. -/
def listenStartClick (playlistLength : Nat) (s : ListenState) : ListenState :=
  if playlistLength = 0 ∨ s.isPlaying = true then s
  else
    { isPlaying := true
      currentIndex := 0
      stopRequested := false
      loopStarts := s.loopStarts + 1 }

/-- Invariant of the multiple-choice machine: while playing, the answers are
exactly one per already-locked question (the current one counted once an
option is selected) and the index is in range; at results, one answer per
built question. -/
def mcInv (s : MCState) : Prop :=
  (s.phase = GamePhase.playing →
    s.answers.length = s.currentIndex + (if s.selectedIndex.isSome then 1 else 0) ∧
    s.currentIndex < s.questions.length) ∧
  (s.phase = GamePhase.results → s.answers.length = s.questions.length)

/-- A sample word, group 1, with a translation. -/
def wA : Word :=
  { id := 1
    group_id := 1
    word_en := ("cat".toList)
    transcription := none
    translation_uk := some ("kit".toList)
    image_url := none
    image_source := .api
    status := .unknown }

/-- A sample word, group 2, with a translation. -/
def wB : Word :=
  { id := 2
    group_id := 2
    word_en := ("dog".toList)
    transcription := none
    translation_uk := some ("pes".toList)
    image_url := none
    image_source := .api
    status := .unknown }

/-- The target word of the spec's build-word scenario. -/
def seaLion : Word :=
  { id := 3
    group_id := 1
    word_en := ("sea lion".toList)
    transcription := none
    translation_uk := some ("morskyi lev".toList)
    image_url := none
    image_source := .api
    status := .unknown }

/-- A concrete randomness stream (per-shuffle). -/
def rs0 : Nat → Nat := fun _ => 0

/-- A concrete randomness family (per-question shuffles). -/
def R0 : Nat → Nat → Nat := fun _ _ => 0

/-- Concrete multiple-choice settings: every filter on "all". -/
def cSettings : MCSettings :=
  { groupId := none, status := none, questionCount := 10, mode := .enToUk }

/-- Concrete settings selecting group 1. -/
def cGroupSettings : MCSettings :=
  { groupId := some 1, status := none, questionCount := 10, mode := .enToUk }

/-- A concrete two-word collection. -/
def cWords : List Word := [wA, wB]

/-- A collection with exactly one eligible word. -/
def oneWord : List Word := [wA]

/-- A complete concrete interaction: start, then answer both questions. -/
def cEvents : List MCEvent :=
  [.start R0 rs0, .select 0, .next, .select 0, .next]

/-- The first question built from `cWords` with the `R0`/`rs0` randomness. -/
def cQ : Question :=
  { id := 0, word := wB, options := [("kit".toList), ("pes".toList)], correctIndex := 1 }

/-- Concrete build-word settings. -/
def cBWSettings : BWSettings :=
  { groupId := none, status := none, questionCount := 10
    showImage := true, showFirstLetter := false }

/-- A build-word state mid-game with all three slots of "cat" filled. -/
def bwPlayState : BWState :=
  { phase := .playing
    settings := cBWSettings
    questions := [wA]
    currentIndex := 0
    slots := [⟨0, .letter, some 'c', some 0⟩, ⟨1, .letter, some 'a', some 1⟩,
      ⟨2, .letter, some 't', some 2⟩]
    letters := [⟨0, 'c'⟩, ⟨1, 'a'⟩, ⟨2, 't'⟩]
    selectedState := .idle
    feedback := none
    answers := []
    correctCount := 0
    streak := 0
    bestStreak := 0
    error := none
    onlyWrongRetry := false
    selectedForMark := []
    statsCalls := [] }

/-- A build-word state on the last question with a checked (correct) answer. -/
def bwLastState : BWState :=
  { bwPlayState with selectedState := .correct, answers := [⟨1, true⟩] }

/-- A finished build-word session whose one answer is correct. -/
def bwDoneState : BWState :=
  { bwLastState with phase := .results, correctCount := 1, streak := 1, bestStreak := 1 }

/-- A column-pairs state with every word paired (correctly). -/
def cpDoneState : CPState :=
  { phase := .playing
    gameWords := [wA]
    pairs := [⟨1, 1⟩]
    answers := []
    correctCount := 0
    statsCalls := [] }

/-- A listen-words state in the middle of a narration. -/
def listenPlayingState : ListenState :=
  { isPlaying := true, currentIndex := 2, stopRequested := false, loopStarts := 1 }

end WordsUp

namespace WordsUp

theorem get_cons_set_perm (l : List α) (n : Nat) (h : n < l.length) (a : α) :
    (l.get ⟨n, h⟩ :: l.set n a).Perm (a :: l) := by
  induction l generalizing n with
  | nil => simp at h
  | cons b t ih =>
    cases n with
    | zero => simpa using List.Perm.swap a b t
    | succ m =>
      have hm : m < t.length := by simpa using h
      have step := ih m hm
      have e : (b :: t).get ⟨m + 1, h⟩ :: (b :: t).set (m + 1) a
          = t.get ⟨m, hm⟩ :: b :: t.set m a := by simp [List.set]
      rw [e]
      have p1 : (t.get ⟨m, hm⟩ :: b :: t.set m a).Perm
          (b :: t.get ⟨m, hm⟩ :: t.set m a) := List.Perm.swap b (t.get ⟨m, hm⟩) _
      have p2 : (b :: t.get ⟨m, hm⟩ :: t.set m a).Perm (b :: a :: t) := step.cons b
      have p3 : (b :: a :: t).Perm (a :: b :: t) := List.Perm.swap a b t
      exact (p1.trans p2).trans p3

theorem set_set_get_perm (l : List α) (i j : Nat) (hi : i < l.length)
    (hj : j < l.length) :
    ((l.set i (l.get ⟨j, hj⟩)).set j (l.get ⟨i, hi⟩)).Perm l := by
  induction l generalizing i j with
  | nil => simp at hi
  | cons a t ih =>
    cases i with
    | zero =>
      cases j with
      | zero => simp [List.set]
      | succ m =>
        have hm : m < t.length := by simpa using hj
        have : ((a :: t).set 0 ((a :: t).get ⟨m + 1, hj⟩)).set (m + 1)
            ((a :: t).get ⟨0, hi⟩) = t.get ⟨m, hm⟩ :: t.set m a := by
          simp [List.set]
        rw [this]
        exact get_cons_set_perm t m hm a
    | succ n =>
      have hn : n < t.length := by simpa using hi
      cases j with
      | zero =>
        have : ((a :: t).set (n + 1) ((a :: t).get ⟨0, hj⟩)).set 0
            ((a :: t).get ⟨n + 1, hi⟩) = t.get ⟨n, hn⟩ :: t.set n a := by
          simp [List.set]
        rw [this]
        exact get_cons_set_perm t n hn a
      | succ m =>
        have hm : m < t.length := by simpa using hj
        have : ((a :: t).set (n + 1) ((a :: t).get ⟨m + 1, hj⟩)).set (m + 1)
            ((a :: t).get ⟨n + 1, hi⟩)
            = a :: ((t.set n (t.get ⟨m, hm⟩)).set m (t.get ⟨n, hn⟩)) := by
          simp [List.set]
        rw [this]
        exact (ih n m hn hm).cons a

theorem listSwap_perm (l : List α) (i j : Nat) : (listSwap l i j).Perm l := by
  unfold listSwap
  split
  · next h => exact set_set_get_perm l i j h.1 h.2
  · exact List.Perm.refl l

theorem shuffleGo_perm (r : Nat → Nat) (n : Nat) (l : List α) :
    (shuffleGo r n l).Perm l := by
  induction n generalizing l with
  | zero => exact List.Perm.refl l
  | succ i ih =>
    exact (ih _).trans (listSwap_perm l (i + 1) (r (i + 1) % (i + 2)))

theorem shuffleArray_perm (r : Nat → Nat) (arr : List α) :
    (shuffleArray r arr).Perm arr :=
  shuffleGo_perm r (arr.length - 1) arr

theorem shuffleArray_length (r : Nat → Nat) (arr : List α) :
    (shuffleArray r arr).length = arr.length :=
  (shuffleArray_perm r arr).length_eq

end WordsUp

namespace WordsUp

theorem jsDedupGo_spec [DecidableEq α] (l : List α) : ∀ seen : List α,
    (jsDedupGo seen l).Nodup ∧ ∀ x ∈ jsDedupGo seen l, x ∉ seen := by
  induction l with
  | nil => intro seen; simp [jsDedupGo]
  | cons x xs ih =>
    intro seen
    unfold jsDedupGo
    by_cases hx : x ∈ seen
    · simpa [hx] using ih seen
    · rw [if_neg hx]
      obtain ⟨hnd, hmem⟩ := ih (x :: seen)
      refine ⟨List.nodup_cons.mpr ⟨fun hc => (hmem x hc) (List.mem_cons_self x seen), hnd⟩, ?_⟩
      intro y hy
      rcases List.mem_cons.mp hy with rfl | hy2
      · exact hx
      · intro hyseen; exact (hmem y hy2) (List.mem_cons_of_mem x hyseen)

theorem jsDedup_nodup [DecidableEq α] (l : List α) : (jsDedup l).Nodup :=
  (jsDedupGo_spec l []).1

theorem jsFindIndex_some (p : α → Bool) :
    ∀ (l : List α) (n : Nat), jsFindIndex p l = some n →
      ∃ x, l[n]? = some x ∧ p x = true := by
  intro l
  induction l with
  | nil => intro n h; simp [jsFindIndex] at h
  | cons x xs ih =>
    intro n h
    unfold jsFindIndex at h
    by_cases hp : p x
    · rw [if_pos hp] at h
      cases h
      exact ⟨x, by simp, hp⟩
    · rw [if_neg hp] at h
      cases hfx : jsFindIndex p xs with
      | none => rw [hfx] at h; simp at h
      | some m =>
        rw [hfx] at h
        have h3 : some (m + 1) = some n := h
        cases h3
        obtain ⟨y, hy, hpy⟩ := ih m hfx
        exact ⟨y, by rw [List.getElem?_cons_succ]; exact hy, hpy⟩

theorem mem_of_mem_statusFilter (st : Option WStatus) (pool : List Word) (w : Word)
    (h : w ∈ statusFilter st pool) : w ∈ pool := by
  cases st with
  | none => exact h
  | some s => exact (List.mem_filter.mp h).1

theorem statusFilter_status (st : WStatus) (pool : List Word) (w : Word)
    (h : w ∈ statusFilter (some st) pool) : w.status = st :=
  of_decide_eq_true (List.mem_filter.mp h).2

theorem mem_of_mem_groupFallback (g : Option Nat) (pool : List Word) (w : Word)
    (h : w ∈ groupFallback g pool) : w ∈ pool := by
  cases g with
  | none => exact h
  | some g0 =>
    unfold groupFallback at h
    rcases List.mem_append.mp h with h1 | h2
    · exact (List.mem_filter.mp h1).1
    · by_cases hc : (pool.filter (fun w => decide (w.group_id = g0))).length < 10
      · rw [if_pos hc] at h2
        exact (List.mem_filter.mp h2).1
      · rw [if_neg hc] at h2
        simp at h2

theorem groupFallback_group_of_big (g : Nat) (pool : List Word) (w : Word)
    (h : w ∈ groupFallback (some g) pool)
    (hbig : 10 ≤ (pool.filter (fun u => decide (u.group_id = g))).length) :
    w.group_id = g := by
  have h2 : w ∈ (pool.filter (fun u => decide (u.group_id = g))) ++
      (if (pool.filter (fun u => decide (u.group_id = g))).length < 10
        then pool.filter (fun u => decide (u.group_id ≠ g)) else []) := h
  rw [if_neg (Nat.not_lt.mpr hbig), List.append_nil] at h2
  exact of_decide_eq_true (List.mem_filter.mp h2).2

theorem mem_of_mem_mcModeFilter (mode : GameMode) (pool : List Word) (w : Word)
    (h : w ∈ mcModeFilter mode pool) : w ∈ pool := by
  cases mode <;> exact (List.mem_filter.mp h).1

theorem bwResultsList_correct :
    ∀ (ws : List Word) (as : List GameAnswer),
      (∀ a ∈ as, a.correct = true) → ws.length ≤ as.length →
      ∀ p ∈ bwResultsList ws as, p.2 = true := by
  intro ws
  induction ws with
  | nil => intro as _ _ p hp; simp [bwResultsList] at hp
  | cons w ws2 ih =>
    intro as hall hlen p hp
    cases as with
    | nil => simp at hlen
    | cons a as2 =>
      unfold bwResultsList at hp
      rcases List.mem_cons.mp hp with rfl | hp2
      · exact hall a (List.mem_cons_self _ _)
      · exact ih as2 (fun b hb => hall b (List.mem_cons_of_mem a hb))
          (by simpa using hlen) p hp2

end WordsUp

namespace WordsUp

theorem mcInv_init : mcInv mcInit := by
  constructor <;> intro h <;> simp [mcInit] at h

theorem mcInv_start (R : Nat → Nat → Nat) (rs : Nat → Nat) (settings : MCSettings)
    (words : List Word) (s : MCState) (h : mcInv s) :
    mcInv (mcHandleStartGame R rs settings words s) := by
  unfold mcHandleStartGame
  by_cases hp : (mcFilteredBaseWords settings words).isEmpty
  · simpa [hp, mcInv] using h
  · rw [if_neg hp]
    by_cases hq :
        (buildQuestions R rs (mcFilteredBaseWords settings words)
          settings.mode settings.questionCount).isEmpty
    · simpa [hq, mcInv] using h
    · rw [if_neg hq]
      constructor
      · intro _
        refine ⟨by simp, ?_⟩
        have hne : buildQuestions R rs (mcFilteredBaseWords settings words)
            settings.mode settings.questionCount ≠ [] := by
          simpa [List.isEmpty_iff] using hq
        simpa using List.length_pos.mpr hne
      · intro hres
        simp [mcInv] at hres

theorem mcInv_select (idx : Nat) (s : MCState) (h : mcInv s) :
    mcInv (mcHandleSelectOption idx s) := by
  cases hq : mcCurrentQuestion s with
  | none =>
    have he : mcHandleSelectOption idx s = s := by
      unfold mcHandleSelectOption; rw [hq]
    rw [he]; exact h
  | some q =>
    have hplay : s.phase = GamePhase.playing := by
      by_cases hp : s.phase = GamePhase.playing
      · exact hp
      · simp [mcCurrentQuestion, hp] at hq
    have hidx : s.currentIndex < s.questions.length := by
      have hq2 := hq
      unfold mcCurrentQuestion at hq2
      rw [if_pos hplay] at hq2
      obtain ⟨hlt, -⟩ := List.getElem?_eq_some_iff.mp hq2
      exact hlt
    by_cases hsel : s.selectedIndex.isSome
    · have he : mcHandleSelectOption idx s = s := by
        unfold mcHandleSelectOption; rw [hq]; simp [hsel]
      rw [he]; exact h
    · have hlen : s.answers.length = s.currentIndex := by
        have h1 := (h.1 hplay).1
        simpa [hsel] using h1
      simp only [mcHandleSelectOption, hq]
      rw [if_neg hsel]
      constructor
      · intro _
        constructor
        · simp [hlen]
        · simpa using hidx
      · intro hres
        have hres2 : s.phase = GamePhase.results := hres
        rw [hplay] at hres2
        exact absurd hres2 (by decide)

theorem mcInv_next (s : MCState) (hplay : s.phase = GamePhase.playing)
    (hsel : s.selectedIndex ≠ none) (h : mcInv s) :
    mcInv (mcHandleNextQuestion s) := by
  have hsel2 : s.selectedIndex.isSome = true := Option.isSome_iff_ne_none.mpr hsel
  obtain ⟨hlen, hidx⟩ := h.1 hplay
  simp only [hsel2, if_true] at hlen
  unfold mcHandleNextQuestion
  by_cases hend : s.currentIndex + 1 ≥ s.questions.length
  · rw [if_pos hend]
    constructor
    · intro hres
      have hres2 : GamePhase.results = GamePhase.playing := hres
      exact absurd hres2 (by decide)
    · intro _
      show s.answers.length = s.questions.length
      omega
  · rw [if_neg hend]
    constructor
    · intro _
      constructor
      · show s.answers.length = s.currentIndex + 1 + (if (none : Option Nat).isSome then 1 else 0)
        simp [hlen]
      · show s.currentIndex + 1 < s.questions.length
        omega
    · intro hres
      have hres2 : s.phase = GamePhase.results := hres
      rw [hplay] at hres2
      exact absurd hres2 (by decide)

theorem mcInv_step (settings : MCSettings) (words : List Word) (s : MCState)
    (e : MCEvent) (h : mcInv s) : mcInv (mcStep settings words s e) := by
  cases e with
  | start R rs => exact mcInv_start R rs settings words s h
  | select idx => exact mcInv_select idx s h
  | next =>
    unfold mcStep
    by_cases hc : s.phase = GamePhase.playing ∧ s.selectedIndex ≠ none
    · rw [if_pos hc]; exact mcInv_next s hc.1 hc.2 h
    · rw [if_neg hc]; exact h
  | toSetup =>
    unfold mcStep
    by_cases hc : s.phase = GamePhase.results
    · rw [if_pos hc]
      constructor <;> intro hp <;> simp at hp
    · rw [if_neg hc]; exact h

theorem mcInv_foldl (settings : MCSettings) (words : List Word) :
    ∀ (events : List MCEvent) (s : MCState), mcInv s →
      mcInv (events.foldl (mcStep settings words) s) := by
  intro events
  induction events with
  | nil => intro s h; exact h
  | cons e es ih =>
    intro s h
    exact ih (mcStep settings words s e) (mcInv_step settings words s e h)

theorem mcInv_run (settings : MCSettings) (words : List Word) (events : List MCEvent) :
    mcInv (mcRun settings words events) :=
  mcInv_foldl settings words events mcInit mcInv_init

end WordsUp

namespace WordsUp

/-- C1 (amended): every Word output by the Pool Filter of the multiple-choice
and build-word pages satisfies the selected status predicate; and when a
concrete group is selected, it satisfies the group predicate provided the
in-group subset at the fallback point has at least 10 words (with fewer,
out-of-group words are appended after the in-group ones). -/
theorem pool_filter_status_group_amended :
    (∀ (settings : MCSettings) (words : List Word) (w : Word),
      w ∈ mcFilteredBaseWords settings words →
      (∀ st, settings.status = some st → w.status = st) ∧
      (∀ g, settings.groupId = some g →
        10 ≤ ((statusFilter settings.status words).filter
            (fun u => decide (u.group_id = g))).length →
        w.group_id = g)) ∧
    (∀ (settings : BWSettings) (words : List Word) (w : Word),
      w ∈ bwFilteredBaseWords settings words →
      (∀ st, settings.status = some st → w.status = st) ∧
      (∀ g, settings.groupId = some g →
        10 ≤ ((statusFilter settings.status
              (words.filter (fun u => isSimpleWord u.word_en))).filter
            (fun u => decide (u.group_id = g))).length →
        w.group_id = g)) := by
  constructor
  · intro settings words w hw
    have hw1 : w ∈ groupFallback settings.groupId (statusFilter settings.status words) :=
      mem_of_mem_mcModeFilter settings.mode _ w hw
    constructor
    · intro st hst
      have hw2 : w ∈ statusFilter settings.status words :=
        mem_of_mem_groupFallback settings.groupId _ w hw1
      rw [hst] at hw2
      exact statusFilter_status st words w hw2
    · intro g hg hbig
      rw [hg] at hw1
      exact groupFallback_group_of_big g _ w hw1 hbig
  · intro settings words w hw
    have hw0 : w ∈ groupFallback settings.groupId
        (statusFilter settings.status (words.filter (fun u => isSimpleWord u.word_en))) :=
      (List.mem_filter.mp hw).1
    constructor
    · intro st hst
      have hw2 := mem_of_mem_groupFallback settings.groupId _ w hw0
      rw [hst] at hw2
      exact statusFilter_status st _ w hw2
    · intro g hg hbig
      rw [hg] at hw0
      exact groupFallback_group_of_big g _ w hw0 hbig

/-- C1 counterexample: with group 1 selected and only one group-1 word in the
collection, the multiple-choice Pool Filter output contains the group-2 word
`wB`, so the selected-group predicate does not hold of every output Word. -/
theorem pool_filter_group_cex :
    wB ∈ mcFilteredBaseWords cGroupSettings cWords ∧ wB.group_id ≠ 1 := by decide

/-- C1 witness: the amended theorem applied to a concrete collection. -/
theorem pool_filter_status_group_witness : wA.status = WStatus.unknown := by
  have h := pool_filter_status_group_amended.1
    { groupId := some 1, status := some WStatus.unknown, questionCount := 10
      mode := GameMode.enToUk } cWords wA (by decide)
  exact h.1 WStatus.unknown rfl

/-- C3: the Fisher-Yates shuffleArray returns a permutation of its input for
every randomness stream: same length and same multiset, for all N >= 0. -/
theorem shuffle_is_permutation {α : Type _} (r : Nat → Nat) (arr : List α) :
    (shuffleArray r arr).length = arr.length ∧
    ((shuffleArray r arr : List α) : Multiset α) = (arr : Multiset α) :=
  ⟨(shuffleArray_perm r arr).length_eq, Multiset.coe_eq_coe.mpr (shuffleArray_perm r arr)⟩

end WordsUp

namespace WordsUp

theorem countP_eq_one_of_nodup_mem [DecidableEq α] :
    ∀ (l : List α) (a : α), l.Nodup → a ∈ l →
      l.countP (fun x => decide (x = a)) = 1 := by
  intro l
  induction l with
  | nil => intro a _ ha; simp at ha
  | cons x xs ih =>
    intro a hnd ha
    obtain ⟨hx, hnd2⟩ := List.nodup_cons.mp hnd
    rw [List.countP_cons]
    rcases List.mem_cons.mp ha with rfl | ha2
    · have hz : xs.countP (fun y => decide (y = a)) = 0 := by
        rw [List.countP_eq_zero]
        intro b hb hbeq
        exact hx (of_decide_eq_true hbeq ▸ hb)
      simp [hz]
    · have hxa : x ≠ a := fun he => hx (he ▸ ha2)
      simp [ih a hnd2 ha2, hxa]

/-- C4: every question produced by the multiple-choice Session Builder, for
any pool, mode, requested count and randomness, lists the correct answer text
exactly once among its options, and indexing the options at `correctIndex`
yields that text. -/
theorem buildQuestions_correct_option (R : Nat → Nat → Nat) (rs : Nat → Nat)
    (pool : List Word) (mode : GameMode) (count : Nat) (q : Question)
    (hq : q ∈ buildQuestions R rs pool mode count) :
    q.options.countP (fun o => decide (o = correctTextOf mode q.word)) = 1 ∧
    q.options[q.correctIndex]? = some (correctTextOf mode q.word) := by
  simp only [buildQuestions] at hq
  by_cases hlen : pool.length < 2
  · rw [if_pos hlen] at hq; simp at hq
  · rw [if_neg hlen] at hq
    obtain ⟨i, -, hf⟩ := List.mem_filterMap.mp hq
    cases ht : (shuffleArray rs pool)[i]? with
    | none => simp [ht] at hf
    | some target =>
      simp only [ht] at hf
      simp only [mkQuestion] at hf
      split at hf
      · simp at hf
      · split at hf
        · simp at hf
        · rename_i hfound
          injection hf with hf2
          subst hf2
          obtain ⟨x, hx, hpx⟩ := jsFindIndex_some _ _ _ hfound
          have hxeq : x = correctTextOf mode target := of_decide_eq_true hpx
          subst hxeq
          have hnd : (shuffleArray (R (2 * i + 1))
              (jsDedup ((correctTextOf mode target ::
                ((shuffleArray (R (2 * i)) (pool.filter
                  (fun w => decide (w.id ≠ target.id)))).take 3).map
                  (correctTextOf mode)).filter (fun s => !s.isEmpty)))).Nodup :=
            (shuffleArray_perm _ _).symm.nodup (jsDedup_nodup _)
          exact ⟨countP_eq_one_of_nodup_mem _ _ hnd (List.getElem?_mem hx), hx⟩

/-- C4 witness: the theorem applied to the first question built from the
concrete two-word pool. -/
theorem buildQuestions_correct_option_witness :
    cQ.options.countP (fun o => decide (o = correctTextOf GameMode.enToUk cQ.word)) = 1 ∧
    cQ.options[cQ.correctIndex]? = some (correctTextOf GameMode.enToUk cQ.word) :=
  buildQuestions_correct_option R0 rs0 cWords GameMode.enToUk 10 cQ (by decide)

end WordsUp

namespace WordsUp

/-- C5: in the build-word game, `handleCheck` on an idle playing state always
rejects while some letter slot is unfilled (no Answer Record appended, the
fill-all feedback surfaced, state still idle); with every letter slot filled
it appends exactly one Answer Record whose correctness flag holds iff the
lowercased concatenation of the letter-slot characters equals the target word
lowercased with all whitespace removed. -/
theorem build_word_check (s : BWState) (w : Word)
    (hw : bwCurrentWord s = some w) (hidle : s.selectedState = SelState.idle) :
    ((letterSlotChars s.slots).any (fun c => c.isNone) = true →
      (bwHandleCheck s).answers = s.answers ∧
      (bwHandleCheck s).feedback = some BWFeedback.fillAll ∧
      (bwHandleCheck s).selectedState = SelState.idle) ∧
    ((letterSlotChars s.slots).any (fun c => c.isNone) = false →
      (bwHandleCheck s).answers =
        s.answers ++ [⟨w.id, decide (bwAnswerNormalized s.slots = bwCorrectNormalized w)⟩] ∧
      (bwHandleCheck s).selectedState =
        (if bwAnswerNormalized s.slots = bwCorrectNormalized w then SelState.correct
          else SelState.wrong)) := by
  have hne : ¬(s.selectedState ≠ SelState.idle) := by simp [hidle]
  constructor
  · intro hu
    simp only [bwHandleCheck, hw]
    rw [if_neg hne, if_pos hu]
    exact ⟨rfl, rfl, hidle⟩
  · intro hu
    simp only [bwHandleCheck, hw]
    rw [if_neg hne, if_neg (by simp [hu])]
    refine ⟨rfl, ?_⟩
    by_cases hc : bwAnswerNormalized s.slots = bwCorrectNormalized w
    · simp [hc]
    · simp [hc]

/-- C5 witness: checking the fully built word "cat" appends the one correct
Answer Record. -/
theorem build_word_check_witness :
    (bwHandleCheck bwPlayState).answers = [⟨1, true⟩] := by
  have h := (build_word_check bwPlayState wA (by decide) rfl).2 (by decide)
  exact h.1.trans (by decide)

/-- C6: whenever a run of the multiple-choice machine is in the results
phase, it holds one Answer Record per built Session Item; and the
column-pairs check, which is the only transition of that page into results,
produces exactly one Answer Record per game word. -/
theorem answers_complete_at_results (settings : MCSettings) (words : List Word)
    (events : List MCEvent)
    (h : (mcRun settings words events).phase = GamePhase.results) :
    (mcRun settings words events).answers.length =
      (mcRun settings words events).questions.length ∧
    ∀ cs : CPState, cs.pairs.length = cs.gameWords.length →
      (cpHandleCheck cs).phase = GamePhase.results ∧
      (cpHandleCheck cs).answers.length = (cpHandleCheck cs).gameWords.length := by
  constructor
  · exact (mcInv_run settings words events).2 h
  · intro cs hp
    unfold cpHandleCheck
    rw [if_neg (by simp [hp])]
    refine ⟨rfl, ?_⟩
    show (cs.gameWords.map _).length = cs.gameWords.length
    simp

/-- C6 witness: a complete concrete session together with a fully paired
column-pairs state. -/
theorem answers_complete_at_results_witness :
    (mcRun cSettings cWords cEvents).answers.length =
      (mcRun cSettings cWords cEvents).questions.length ∧
    (cpHandleCheck cpDoneState).answers.length =
      (cpHandleCheck cpDoneState).gameWords.length := by
  have h := answers_complete_at_results cSettings cWords cEvents (by decide)
  exact ⟨h.1, (h.2 cpDoneState (by decide)).2⟩

/-- C7: on a finished build-word session whose Answer Records are all
correct, retry-wrong-only is a no-op that surfaces the no-wrong-words error:
the phase stays results and no new session is built. -/
theorem retry_wrong_only_noop (r rSlots : Nat → Nat) (s : BWState)
    (hphase : s.phase = GamePhase.results)
    (hall : ∀ a ∈ s.answers, a.correct = true)
    (hlen : s.questions.length ≤ s.answers.length) :
    (bwHandleRetryWrongOnly r rSlots s).phase = GamePhase.results ∧
    (bwHandleRetryWrongOnly r rSlots s).error = some BWError.noWrongWords ∧
    (bwHandleRetryWrongOnly r rSlots s).questions = s.questions ∧
    (bwHandleRetryWrongOnly r rSlots s).answers = s.answers := by
  have hfilter : ((bwResults s).filter (fun p => !p.2)) = [] := by
    rw [List.filter_eq_nil_iff]
    intro p hp
    have hpt : p.2 = true := by
      unfold bwResults at hp
      rw [if_pos hphase] at hp
      exact bwResultsList_correct s.questions s.answers hall hlen p hp
    simp [hpt]
  unfold bwHandleRetryWrongOnly
  rw [hfilter]
  exact ⟨hphase, rfl, rfl, rfl⟩

/-- C7 witness: the theorem applied to a finished all-correct session. -/
theorem retry_wrong_only_noop_witness :
    (bwHandleRetryWrongOnly rs0 rs0 bwDoneState).phase = GamePhase.results ∧
    (bwHandleRetryWrongOnly rs0 rs0 bwDoneState).error = some BWError.noWrongWords := by
  have h := retry_wrong_only_noop rs0 rs0 bwDoneState (by decide) (by decide) (by decide)
  exact ⟨h.1, h.2.1⟩

end WordsUp

namespace WordsUp

/-- C2 (amended): in the build-word game the transition into the results
phase (via `handleNext` after the last checked question) issues exactly one
batched stats submission carrying the session's full ordered Answer Record
sequence, and no per-item handler issues one; the multiple-choice page, by
contrast, issues no stats submission at any event, including the one that
reaches results. -/
theorem stats_reporting_amended (rSlots : Nat → Nat) :
    (∀ s : BWState, s.selectedState ≠ SelState.idle →
      s.currentIndex + 1 ≥ s.questions.length →
      (bwHandleNext rSlots s).phase = GamePhase.results ∧
      (bwHandleNext rSlots s).statsCalls = s.statsCalls ++ [s.answers]) ∧
    (∀ s : BWState, s.currentIndex + 1 < s.questions.length →
      (bwHandleNext rSlots s).statsCalls = s.statsCalls) ∧
    (∀ s : BWState, (bwHandleCheck s).statsCalls = s.statsCalls) ∧
    (∀ (settings : MCSettings) (words : List Word) (s : MCState) (e : MCEvent),
      (mcStep settings words s e).statsCalls = s.statsCalls) := by
  refine ⟨?_, ?_, ?_, ?_⟩
  · intro s hidle hend
    unfold bwHandleNext
    rw [if_neg hidle, if_pos hend]
    exact ⟨rfl, rfl⟩
  · intro s hlt
    unfold bwHandleNext
    by_cases hidle : s.selectedState = SelState.idle
    · rw [if_pos hidle]
    · rw [if_neg hidle, if_neg (Nat.not_le.mpr hlt)]
      cases hcw : bwCurrentWord { s with currentIndex := s.currentIndex + 1 } with
      | some w => simp [hcw]
      | none => simp [hcw]
  · intro s
    cases hcw : bwCurrentWord s with
    | none => simp [bwHandleCheck, hcw]
    | some w =>
      simp only [bwHandleCheck, hcw]
      by_cases hidle : s.selectedState ≠ SelState.idle
      · rw [if_pos hidle]
      · rw [if_neg hidle]
        by_cases hany : (letterSlotChars s.slots).any (fun c => c.isNone)
        · rw [if_pos hany]
        · rw [if_neg hany]
  · intro settings words s e
    cases e with
    | start R rs =>
      simp only [mcStep, mcHandleStartGame]
      by_cases hp : (mcFilteredBaseWords settings words).isEmpty
      · rw [if_pos hp]
      · rw [if_neg hp]
        by_cases hq : (buildQuestions R rs (mcFilteredBaseWords settings words)
            settings.mode settings.questionCount).isEmpty
        · rw [if_pos hq]
        · rw [if_neg hq]
    | select idx =>
      cases hq : mcCurrentQuestion s with
      | none => simp [mcStep, mcHandleSelectOption, hq]
      | some q =>
        simp only [mcStep, mcHandleSelectOption, hq]
        by_cases hsel : s.selectedIndex.isSome
        · rw [if_pos hsel]
        · rw [if_neg hsel]
    | next =>
      simp only [mcStep]
      by_cases hc : s.phase = GamePhase.playing ∧ s.selectedIndex ≠ none
      · rw [if_pos hc]
        unfold mcHandleNextQuestion
        by_cases hend : s.currentIndex + 1 ≥ s.questions.length
        · rw [if_pos hend]
        · rw [if_neg hend]
      · rw [if_neg hc]
    | toSetup =>
      simp only [mcStep]
      by_cases hc : s.phase = GamePhase.results
      · rw [if_pos hc]
      · rw [if_neg hc]

/-- C2 counterexample: a complete multiple-choice session reaches the results
phase with the stats ledger still empty, because the page declares no stats
mutation; so it is not the case that every session issues a batched stats
submission on reaching results. -/
theorem mc_session_no_stats_cex :
    (mcRun cSettings cWords cEvents).phase = GamePhase.results ∧
    (mcRun cSettings cWords cEvents).statsCalls = [] := by
  exact ⟨by decide, by decide⟩

/-- C2 witness: the amended theorem at a concrete last-question state. -/
theorem stats_reporting_amended_witness :
    (bwHandleNext rs0 bwLastState).phase = GamePhase.results ∧
    (bwHandleNext rs0 bwLastState).statsCalls =
      bwLastState.statsCalls ++ [bwLastState.answers] :=
  (stats_reporting_amended rs0).1 bwLastState (by decide) (by decide)

/-- C8 counterexample: for the target "sea lion" the number of interactive
(initially empty) letter slots is 7, not 8 as the claim counts them. -/
theorem sea_lion_slots_cex :
    ¬((buildSlotsAndLetters false rs0 seaLion).1.countP
        (fun sl => decide (sl.type = SlotType.letter) && sl.char.isNone) = 8) := by
  decide

/-- C8 (amended): for target "sea lion" the built slot sequence is
`[L, L, L, space, L, L, L, L]` (8 slots in total: 7 interactive letter slots
across the two words plus one space slot), and exactly 7 draggable letter
buttons are generated, for every shuffle randomness. -/
theorem sea_lion_slots (r : Nat → Nat) :
    (buildSlotsAndLetters false r seaLion).1.map Slot.type =
      [.letter, .letter, .letter, .space, .letter, .letter, .letter, .letter] ∧
    (buildSlotsAndLetters false r seaLion).1.countP
      (fun sl => decide (sl.type = SlotType.letter) && sl.char.isNone) = 7 ∧
    (buildSlotsAndLetters false r seaLion).1.length = 8 ∧
    (buildSlotsAndLetters false r seaLion).2.length = 7 := by
  have h1 : (buildSlotsAndLetters false r seaLion).1 =
      (buildSlotsGo ((jsTrim seaLion.word_en).map Char.toLower) 0 0).1 := rfl
  refine ⟨?_, ?_, ?_, ?_⟩
  · rw [h1]; decide
  · rw [h1]; decide
  · rw [h1]; decide
  · simp only [buildSlotsAndLetters]
    rw [shuffleArray_length]
    decide

/-- C9: clicking start on the listen-words page while a narration is already
playing leaves the playback state unchanged and launches no second narration
loop (the button is disabled by the `isPlaying` flag). -/
theorem listen_start_while_playing_noop (n : Nat) (s : ListenState)
    (h : s.isPlaying = true) : listenStartClick n s = s := by
  unfold listenStartClick
  rw [if_pos (Or.inr h)]

/-- C9 witness: the theorem at a concrete mid-narration state. -/
theorem listen_start_while_playing_noop_witness :
    listenStartClick 5 listenPlayingState = listenPlayingState :=
  listen_start_while_playing_noop 5 listenPlayingState rfl

end WordsUp

namespace WordsUp

/-- C10: when the filtered pool holds exactly one word, starting the
multiple-choice game never enters the playing phase: `buildQuestions` is
empty for every pool of fewer than 2 words, so the start handler surfaces the
question-generation error and the phase stays setup even though the pool
passes the handler's non-emptiness check. -/
theorem single_word_pool_stays_setup (R : Nat → Nat → Nat) (rs : Nat → Nat)
    (settings : MCSettings) (words : List Word) (s : MCState)
    (hpool : (mcFilteredBaseWords settings words).length = 1)
    (hsetup : s.phase = GamePhase.setup) :
    (mcHandleStartGame R rs settings words s).phase = GamePhase.setup ∧
    (mcHandleStartGame R rs settings words s).error = some MCError.cannotGenerate ∧
    ∀ (pool : List Word) (mode : GameMode) (count : Nat), pool.length < 2 →
      buildQuestions R rs pool mode count = [] := by
  have hemp : buildQuestions R rs (mcFilteredBaseWords settings words)
      settings.mode settings.questionCount = [] := by
    unfold buildQuestions
    rw [if_pos (by omega)]
  have hne : ¬(mcFilteredBaseWords settings words).isEmpty = true := by
    intro hc
    rw [List.isEmpty_iff] at hc
    rw [hc] at hpool
    simp at hpool
  have h3 : mcHandleStartGame R rs settings words s =
      { s with error := some MCError.cannotGenerate } := by
    simp only [mcHandleStartGame]
    rw [if_neg hne, hemp]
    rfl
  rw [h3]
  exact ⟨hsetup, rfl, fun pool mode count hlt => by
    unfold buildQuestions; rw [if_pos hlt]⟩

/-- C10 witness: the theorem at a concrete one-word collection. -/
theorem single_word_pool_stays_setup_witness :
    (mcHandleStartGame R0 rs0 cSettings oneWord mcInit).phase = GamePhase.setup ∧
    (mcHandleStartGame R0 rs0 cSettings oneWord mcInit).error = some MCError.cannotGenerate := by
  have h := single_word_pool_stays_setup R0 rs0 cSettings oneWord mcInit (by decide) rfl
  exact ⟨h.1, h.2.1⟩

end WordsUp
